import Mathlib

/-!
Shallow embedding of the API caching and rate-limiting layer
(`ApiCache`, `generateCacheKey`, `cachedFetch`, `cachedMultiStockFetch`)
of the FinBoard front-end repository, together with proofs about the
claims on that layer.

Modelling conventions:
* `Date.now()` is passed explicitly as an `Int` argument `now`
  (milliseconds); a sequence of statements that the source executes in
  one tick shares one `now`.
* The two `Map` fields of the `ApiCache` class become association lists
  (`List (String × _)`); `Map.get` / `Map.set` / `Map.delete` become
  `mapGet` / `mapSet` / a filter, preserving the JS `Map` semantics
  that `set` on an existing key updates it in place.
* JS values travelling through the cache (`any`) are modelled by a
  `Json` inductive; `undefined` and `null` are collapsed into
  `Json.null` (both are falsy and both short-circuit `?.`, and the
  modelled call sites never distinguish them).
* Thrown JS errors become an `Except` result; `console.log` calls are
  omitted (pure logging).
-/

mutual
/-- JSON-like values, modelling the `any` data flowing through the cache.
Object fields and array elements use the mutually defined list types so
that all recursion over values stays structural. -/
inductive Json where
  | null
  | bool (b : Bool)
  | num (n : Int)
  | str (s : String)
  | obj (fields : JsonFields)
  | arr (elems : JsonElems)
deriving Repr, DecidableEq
/-- Field list of a JSON object. -/
inductive JsonFields where
  | nil
  | cons (key : String) (val : Json) (rest : JsonFields)
deriving Repr, DecidableEq
/-- Element list of a JSON array. -/
inductive JsonElems where
  | nil
  | cons (head : Json) (rest : JsonElems)
deriving Repr, DecidableEq
end

/-- JS truthiness of a value (`NaN` is not modelled; numbers are `Int`). -/
def Json.truthy : Json → Bool
  | .null => false
  | .bool b => b
  | .num n => n != 0
  | .str s => s != ""
  | .obj _ => true
  | .arr _ => true

mutual
/-- Models `JSON.stringify` on the values (string escaping is not
modelled; none of the modelled call sites needs it). -/
def jsonStringify : Json → String
  | .null => "null"
  | .bool b => if b then "true" else "false"
  | .num n => toString n
  | .str s => "\"" ++ s ++ "\""
  | .obj fs => "\x7b" ++ stringifyFields fs ++ "\x7d"
  | .arr es => "[" ++ stringifyElems es ++ "]"
/-- Comma-separated rendering of object fields. -/
def stringifyFields : JsonFields → String
  | .nil => ""
  | .cons k v .nil => "\"" ++ k ++ "\":" ++ jsonStringify v
  | .cons k v (.cons k' v' rest) =>
    "\"" ++ k ++ "\":" ++ jsonStringify v ++ "," ++ stringifyFields (.cons k' v' rest)
/-- Comma-separated rendering of array elements. -/
def stringifyElems : JsonElems → String
  | .nil => ""
  | .cons v .nil => jsonStringify v
  | .cons v (.cons v' rest) => jsonStringify v ++ "," ++ stringifyElems (.cons v' rest)
end

/-- Models `Map.get`: first binding of the key, if any. -/
def mapGet {α : Type} : List (String × α) → String → Option α
  | [], _ => none
  | (k', v) :: rest, k => if k' = k then some v else mapGet rest k

/-- Models `Map.set`: update the binding in place if the key is present,
otherwise append a new binding (JS `Map` insertion order). -/
def mapSet {α : Type} (m : List (String × α)) (k : String) (v : α) :
    List (String × α) :=
  if m.any (fun p => p.1 == k) then
    m.map (fun p => if p.1 = k then (k, v) else p)
  else
    m ++ [(k, v)]

theorem mapGet_map_update_self {α : Type} (m : List (String × α)) (k : String) (v : α)
    (hany : m.any (fun p => p.1 == k) = true) :
    mapGet (m.map (fun p => if p.1 = k then (k, v) else p)) k = some v := by
  induction m with
  | nil => simp at hany
  | cons p rest ih =>
    rw [List.map_cons]
    by_cases hpk : p.1 = k
    · rw [if_pos hpk]
      simp [mapGet]
    · rw [if_neg hpk]
      have hrest : rest.any (fun p => p.1 == k) = true := by
        simpa [List.any_cons, hpk] using hany
      rw [show mapGet (p :: rest.map (fun p => if p.1 = k then (k, v) else p)) k =
          if p.1 = k then some p.2
          else mapGet (rest.map (fun p => if p.1 = k then (k, v) else p)) k from rfl]
      rw [if_neg hpk]
      exact ih hrest

theorem mapGet_map_update_ne {α : Type} (m : List (String × α)) (k k' : String) (v : α)
    (hne : k' ≠ k) :
    mapGet (m.map (fun p => if p.1 = k then (k, v) else p)) k' = mapGet m k' := by
  induction m with
  | nil => simp [mapGet]
  | cons p rest ih =>
    rw [List.map_cons]
    by_cases hpk : p.1 = k
    · rw [if_pos hpk]
      have h1 : ¬ k = k' := fun h => hne h.symm
      have h2 : ¬ p.1 = k' := hpk ▸ h1
      rw [show mapGet ((k, v) :: rest.map (fun p => if p.1 = k then (k, v) else p)) k' =
          if k = k' then some v
          else mapGet (rest.map (fun p => if p.1 = k then (k, v) else p)) k' from rfl]
      rw [if_neg h1, ih]
      rw [show mapGet (p :: rest) k' =
          if p.1 = k' then some p.2 else mapGet rest k' from rfl, if_neg h2]
    · rw [if_neg hpk]
      rw [show mapGet (p :: rest.map (fun p => if p.1 = k then (k, v) else p)) k' =
          if p.1 = k' then some p.2
          else mapGet (rest.map (fun p => if p.1 = k then (k, v) else p)) k' from rfl]
      rw [show mapGet (p :: rest) k' =
          if p.1 = k' then some p.2 else mapGet rest k' from rfl, ih]

theorem mapGet_append_single {α : Type} (m : List (String × α)) (k k' : String) (v : α) :
    mapGet (m ++ [(k, v)]) k' =
      (mapGet m k').orElse (fun _ => if k = k' then some v else none) := by
  induction m with
  | nil => simp [mapGet, Option.orElse]
  | cons p rest ih =>
    rw [List.cons_append]
    rw [show mapGet (p :: (rest ++ [(k, v)])) k' =
        if p.1 = k' then some p.2 else mapGet (rest ++ [(k, v)]) k' from rfl]
    rw [show mapGet (p :: rest) k' =
        if p.1 = k' then some p.2 else mapGet rest k' from rfl]
    by_cases hp' : p.1 = k'
    · simp [hp', Option.orElse]
    · rw [if_neg hp', if_neg hp', ih]

theorem mapGet_eq_none_of_not_any {α : Type} (m : List (String × α)) (k : String)
    (hany : m.any (fun p => p.1 == k) = false) : mapGet m k = none := by
  induction m with
  | nil => rfl
  | cons p rest ih =>
    simp only [List.any_cons, Bool.or_eq_false_iff] at hany
    have h1 : ¬ p.1 = k := by simpa using hany.1
    rw [show mapGet (p :: rest) k =
        if p.1 = k then some p.2 else mapGet rest k from rfl, if_neg h1]
    exact ih hany.2

theorem mapGet_mapSet_self {α : Type} (m : List (String × α)) (k : String) (v : α) :
    mapGet (mapSet m k v) k = some v := by
  unfold mapSet
  by_cases hany : m.any (fun p => p.1 == k) = true
  · simpa [hany] using mapGet_map_update_self m k v hany
  · have h0 : m.any (fun p => p.1 == k) = false := by
      exact Bool.not_eq_true _ ▸ eq_false_of_ne_true hany
    rw [if_neg (by simp only [h0]; exact Bool.false_ne_true), mapGet_append_single,
      mapGet_eq_none_of_not_any m k h0]
    simp [Option.orElse]

theorem mapGet_mapSet_ne {α : Type} (m : List (String × α)) (k k' : String) (v : α)
    (hne : k' ≠ k) : mapGet (mapSet m k v) k' = mapGet m k' := by
  unfold mapSet
  by_cases hany : m.any (fun p => p.1 == k) = true
  · simpa [hany] using mapGet_map_update_ne m k k' v hne
  · rw [if_neg (by simpa using hany), mapGet_append_single,
      if_neg (fun h => hne h.symm)]
    cases mapGet m k' <;> simp [Option.orElse]

/-- A stored cache entry (`CacheEntry` in the source): the payload, the
creation time (`timestamp`) and the absolute expiry time (`expiry`). -/
structure CacheEntry where
  data : Json
  timestamp : Int
  expiry : Int
deriving Repr, DecidableEq

/-- A per-domain rate-limit window (`RateLimitEntry` in the source). -/
structure RateLimitEntry where
  count : Nat
  resetTime : Int
deriving Repr, DecidableEq

/-- The private state of the `ApiCache` class: the response cache and the
per-domain rate-limit windows. -/
structure ApiCacheState where
  cache : List (String × CacheEntry)
  rateLimits : List (String × RateLimitEntry)
deriving Repr, DecidableEq

/-- The empty state a freshly constructed `ApiCache` starts with. -/
def ApiCacheState.empty : ApiCacheState := ⟨[], []⟩

/-- The `private defaultTTL = 60000` constant (one minute). -/
def defaultTTL : Int := 60000

/-- Method `ApiCache.get`: look the key up; a missing key is a miss, an entry
whose expiry is strictly in the past is deleted (lazy eviction) and
reported as a miss, otherwise the stored data is returned. -/
def ApiCache.get (st : ApiCacheState) (now : Int) (key : String) :
    Option Json × ApiCacheState :=
  match mapGet st.cache key with
  | none => (none, st)
  | some entry =>
    if entry.expiry < now then
      (none, { st with cache := st.cache.filter (fun p => p.1 != key) })
    else
      (some entry.data, st)

/-- The `const ttl = ttlMs || this.defaultTTL` computation of
`ApiCache.set`: a supplied ttl of `0` (JS falsy) silently falls back to
the default TTL, while any nonzero ttl — including a negative one — is
used as given; an omitted ttl (`undefined`) also falls back. -/
def effectiveTtl (ttlMs : Option Int) : Int :=
  match ttlMs with
  | some t => if t = 0 then defaultTTL else t
  | none => defaultTTL

/-- Method `ApiCache.set`: store the data under the key with expiry
`now + ttl`.  `Date.now()` is read for both `timestamp` and `expiry`;
both reads are modelled by the one `now`. -/
def ApiCache.set (st : ApiCacheState) (now : Int) (key : String) (data : Json)
    (ttlMs : Option Int) : ApiCacheState :=
  { st with cache := mapSet st.cache key ⟨data, now, now + effectiveTtl ttlMs⟩ }

/-- Method `ApiCache.delete`. -/
def ApiCache.deleteKey (st : ApiCacheState) (key : String) : ApiCacheState :=
  { st with cache := st.cache.filter (fun p => p.1 != key) }

/-- Method `ApiCache.clear`. -/
def ApiCache.clear (st : ApiCacheState) : ApiCacheState :=
  { st with cache := [] }

/-- Method `ApiCache.size`. -/
def ApiCache.size (st : ApiCacheState) : Nat :=
  st.cache.length

/-- Method `ApiCache.cleanup`: drop every cache entry whose expiry is strictly
in the past and every rate-limit window whose reset time is strictly in
the past. -/
def ApiCache.cleanup (st : ApiCacheState) (now : Int) : ApiCacheState :=
  { cache := st.cache.filter (fun p => !(decide (p.2.expiry < now))),
    rateLimits := st.rateLimits.filter (fun p => !(decide (p.2.resetTime < now))) }

/-- Method `ApiCache.isRateLimited`: fixed-window admission check.  A missing or
lapsed window is replaced by a fresh one with `count = 1` (not limited);
an unexpired window at or above `maxRequests` reports limited without
mutating; otherwise the count is incremented in place (not limited). -/
def ApiCache.isRateLimited (st : ApiCacheState) (now : Int) (domain : String)
    (maxRequests : Nat) (windowMs : Int) : Bool × ApiCacheState :=
  match mapGet st.rateLimits domain with
  | none =>
    (false, { st with rateLimits := mapSet st.rateLimits domain ⟨1, now + windowMs⟩ })
  | some entry =>
    if entry.resetTime < now then
      (false, { st with rateLimits := mapSet st.rateLimits domain ⟨1, now + windowMs⟩ })
    else if maxRequests ≤ entry.count then
      (true, st)
    else
      (false,
        { st with
          rateLimits := mapSet st.rateLimits domain ⟨entry.count + 1, entry.resetTime⟩ })

/-- Method `ApiCache.getRemainingRequests`: a read-only query.  The returned
pair is `(remaining, resetTime)`; the state is returned unchanged (the
source method contains no mutation).  With no stored window it reports
the full budget and a nominal reset time one minute out. -/
def ApiCache.getRemainingRequests (st : ApiCacheState) (now : Int) (domain : String)
    (maxRequests : Nat) : (Int × Int) × ApiCacheState :=
  match mapGet st.rateLimits domain with
  | none => (((maxRequests : Int), now + 60000), st)
  | some entry => ((max 0 ((maxRequests : Int) - (entry.count : Int)), entry.resetTime), st)

/-- Per-resource TTL table (`CACHE_TTL` in the source). -/
structure CacheTtlTable where
  STOCK_QUOTE : Int
  STOCK_METRICS : Int
  COMPANY_PROFILE : Int
  MARKET_DATA : Int
  HISTORICAL : Int

/-- The `CACHE_TTL` constants. -/
def CACHE_TTL : CacheTtlTable :=
  { STOCK_QUOTE := 30000,
    STOCK_METRICS := 300000,
    COMPANY_PROFILE := 3600000,
    MARKET_DATA := 60000,
    HISTORICAL := 1800000 }

/-- A per-domain rate budget from the `RATE_LIMITS` table. -/
structure RateBudget where
  maxRequests : Nat
  windowMs : Int
deriving Repr, DecidableEq

/-- Models `RATE_LIMITS[domain] || RATE_LIMITS.default`: the per-domain budget
lookup performed in `cachedFetch`. -/
def rateBudgetFor (domain : String) : RateBudget :=
  if domain = "api.coinbase.com" then ⟨10, 60000⟩
  else if domain = "finnhub.io" then ⟨60, 60000⟩
  else ⟨30, 60000⟩

/-- Rendering by `JSON.stringify` of a parameter record given as a key/value list in
insertion order (the record rebuilt by `generateCacheKey`). -/
def stringifyParamsObject (l : List (String × Json)) : String :=
  "\x7b" ++ String.intercalate ","
    (l.map (fun p => "\"" ++ p.1 ++ "\":" ++ jsonStringify p.2)) ++ "\x7d"

/-- Function `generateCacheKey(endpoint, params)`: sort the parameter names
(`Object.keys(params).sort()`), rebuild the record in that order and
serialize, producing `endpoint:json`.  `params` models a JS record, so
its keys are pairwise distinct at every actual call site. -/
def generateCacheKey (endpoint : String) (params : List (String × Json)) : String :=
  let sortedKeys := List.insertionSort (fun a b => a ≤ b) (params.map Prod.fst)
  let sortedParams := sortedKeys.filterMap (fun k => (mapGet params k).map (fun v => (k, v)))
  endpoint ++ ":" ++ stringifyParamsObject sortedParams

/-- Character-list test that the second list starts with the first. -/
def startsWithChars : List Char → List Char → Bool
  | [], _ => true
  | _ :: _, [] => false
  | p :: ps, c :: cs => p == c && startsWithChars ps cs

/-- Drop the first `n` characters. -/
def dropChars : Nat → List Char → List Char
  | 0, cs => cs
  | _ + 1, [] => []
  | n + 1, _ :: cs => dropChars n cs

/-- Take characters up to the first URL delimiter (`/`, `:`, `?`, `#`). -/
def takeUntilDelim : List Char → List Char
  | [] => []
  | c :: cs =>
    if c == '/' || c == ':' || c == '?' || c == '#' then []
    else c :: takeUntilDelim cs

/-- Function `extractDomain`: models `new URL(url).hostname` for http/https URLs
(the host part after the scheme, up to the first `/`, `:`, `?` or `#`);
every other input makes the `URL` constructor throw, which the source
catches and maps to the sentinel domain `'unknown'`.  Implemented over
the character list so that it stays kernel computable. -/
def extractDomain (url : String) : String :=
  let cs := url.data
  if startsWithChars "https://".data cs then
    let h := takeUntilDelim (dropChars 8 cs)
    if h.isEmpty then "unknown" else String.mk h
  else if startsWithChars "http://".data cs then
    let h := takeUntilDelim (dropChars 7 cs)
    if h.isEmpty then "unknown" else String.mk h
  else "unknown"

/-- A network response as `cachedFetch` consumes it: `ok`/`status`/
`statusText` from the `Response`, and `body` the outcome of
`response.json()` (`none` models a body that is not valid JSON). -/
structure NetResp where
  ok : Bool
  status : Nat
  statusText : String
  body : Option Json
deriving Repr, DecidableEq

/-- The errors `cachedFetch` and the per-symbol batch body can throw.
The source throws `Error` objects whose messages are rendered from
exactly these data. -/
inductive FetchError where
  | rateLimited (domain : String) (waitSeconds : Int)
  | httpError (status : Nat) (statusText : String)
  | parseError
  | typeError
deriving Repr, DecidableEq

/-- Rendering of a `FetchError` to the JS error message. -/
def FetchError.message : FetchError → String
  | .rateLimited domain waitSeconds =>
    "Rate limited for " ++ domain ++ ". Please wait " ++ toString waitSeconds ++
      " seconds before trying again."
  | .httpError status statusText => "HTTP " ++ toString status ++ ": " ++ statusText
  | .parseError => "Unexpected token in JSON"
  | .typeError => "TypeError"

/-- Models `Math.ceil(ms / 1000)` for integer `ms` (Lean `Int` division is
floor division, so the ceiling is the negated floor of the negation). -/
def ceilSeconds (ms : Int) : Int := -((-ms) / 1000)

/-- Result of one `cachedFetch` call: the returned value or thrown
error, the `ApiCache` state afterwards, and how many network requests
were issued (0 or 1). -/
structure FetchOut where
  result : Except FetchError Json
  state : ApiCacheState
  netCalls : Nat
deriving Repr

/-- The cache-miss continuation of `cachedFetch`: rate-limit gate, then
the network call, then `set` on success.  The source's final
`getRemainingRequests` call after a success only feeds a log line and is
itself read-only, so it is omitted. -/
def cachedFetchMiss (net : String → NetResp) (now : Int) (st : ApiCacheState)
    (url : String) (ttlMs : Option Int) (cacheKey : String) : FetchOut :=
  let domain := extractDomain url
  let limits := rateBudgetFor domain
  let rl := ApiCache.isRateLimited st now domain limits.maxRequests limits.windowMs
  if rl.1 then
    let rr := ApiCache.getRemainingRequests rl.2 now domain limits.maxRequests
    ⟨.error (.rateLimited domain (ceilSeconds (rr.1.2 - now))), rl.2, 0⟩
  else
    let response := net url
    if !response.ok then
      ⟨.error (.httpError response.status response.statusText), rl.2, 1⟩
    else
      match response.body with
      | none => ⟨.error .parseError, rl.2, 1⟩
      | some data => ⟨.ok data, ApiCache.set rl.2 now cacheKey data ttlMs, 1⟩

/-- Function `cachedFetch(url, options, ttlMs)`: compute the key from the URL and
an empty parameter record, consult the cache (the hit test is the JS
truthiness of the value `get` returned), and otherwise run the miss
path.  `options` carries no cache-relevant information and is dropped. -/
def cachedFetch (net : String → NetResp) (now : Int) (st : ApiCacheState)
    (url : String) (ttlMs : Option Int) : FetchOut :=
  let cacheKey := generateCacheKey url []
  let g := ApiCache.get st now cacheKey
  match g.1 with
  | some v =>
    if v.truthy then ⟨.ok v, g.2, 0⟩
    else cachedFetchMiss net now g.2 url ttlMs cacheKey
  | none => cachedFetchMiss net now g.2 url ttlMs cacheKey

/-- Lookup of a field inside a JSON object's field list. -/
def JsonFields.find : JsonFields → String → Option Json
  | .nil, _ => none
  | .cons k v rest, key => if k = key then some v else rest.find key

/-- Plain property access `j.k`: throws a `TypeError` when the receiver
is nullish, yields the field (or an absent value, modelled `null`)
otherwise.  Non-object receivers yield `undefined`, modelled `null`. -/
def jsGet (j : Json) (k : String) : Except FetchError Json :=
  match j with
  | .null => .error .typeError
  | .obj fs => .ok ((fs.find k).getD .null)
  | _ => .ok .null

/-- Optional-chaining access `j?.[k]` / `j?.k`: never throws; nullish
receivers and missing fields yield `undefined`, modelled `null`. -/
def jsOptGet (j : Json) (k : String) : Json :=
  match j with
  | .null => .null
  | .obj fs => (fs.find k).getD .null
  | _ => .null

/-- JS `a || b`. -/
def jsOr (a b : Json) : Json := if a.truthy then a else b

/-- The per-symbol result object that `cachedMultiStockFetch` builds.
The source assembles a dynamic record starting from `{ symbol }`; every
conditionally assigned property is an `Option` (`none` = never
assigned). -/
structure StockResult where
  symbol : String
  metrics : Option Json := none
  fiftyTwoWeekHigh : Option Json := none
  fiftyTwoWeekLow : Option Json := none
  beta : Option Json := none
  peRatio : Option Json := none
  volume : Option Json := none
  profile : Option Json := none
  name : Option Json := none
  marketCap : Option Json := none
  industry : Option Json := none
  country : Option Json := none
  quote : Option Json := none
  price : Option Json := none
  change : Option Json := none
  changePercent : Option Json := none
  previousClose : Option Json := none
  error : Option String := none
deriving Repr, DecidableEq

/-- Which sub-resources `cachedMultiStockFetch` should fetch. -/
structure Endpoints where
  metrics : Bool
  profile : Bool
  quote : Bool
deriving Repr, DecidableEq

/-- The metrics endpoint URL built for a symbol. -/
def metricsUrl (symbol token : String) : String :=
  "https://finnhub.io/api/v1/stock/metric?symbol=" ++ symbol ++ "&metric=all&token=" ++ token

/-- The profile endpoint URL built for a symbol. -/
def profileUrl (symbol token : String) : String :=
  "https://finnhub.io/api/v1/stock/profile2?symbol=" ++ symbol ++ "&token=" ++ token

/-- The quote endpoint URL built for a symbol. -/
def quoteUrl (symbol token : String) : String :=
  "https://finnhub.io/api/v1/quote?symbol=" ++ symbol ++ "&token=" ++ token

/-- The get-or-fetch pattern of the per-symbol body
(`let x = apiCache.get(key); if (!x) x = await cachedFetch(url, ..., ttl)`):
a truthy cached value short-circuits, anything else re-fetches through
`cachedFetch`. -/
def getOrFetch (net : String → NetResp) (now : Int) (st : ApiCacheState)
    (key url : String) (ttl : Int) : Except FetchError Json × ApiCacheState :=
  let g := ApiCache.get st now key
  match g.1 with
  | some v =>
    if v.truthy then (.ok v, g.2)
    else
      let out := cachedFetch net now g.2 url (some ttl)
      (out.result, out.state)
  | none =>
    let out := cachedFetch net now g.2 url (some ttl)
    (out.result, out.state)

/-- The metrics block of the per-symbol body.  The source reads
`metrics.metric` (plain access — throws on a nullish `metrics`) and then
`?.`-chains each field with a `|| 0` fallback; the repeated evaluation
of `metrics.metric` in the source either always throws or always yields
the same value, so it is evaluated once here. -/
def applyMetrics (r : StockResult) (metrics : Json) : Except FetchError StockResult :=
  match jsGet metrics "metric" with
  | .error e => .error e
  | .ok metricObj =>
    .ok { r with
      metrics := some metrics,
      fiftyTwoWeekHigh := some (jsOr (jsOptGet metricObj "52WeekHigh") (.num 0)),
      fiftyTwoWeekLow := some (jsOr (jsOptGet metricObj "52WeekLow") (.num 0)),
      beta := some (jsOr (jsOptGet metricObj "beta") (.num 0)),
      peRatio := some (jsOr (jsOptGet metricObj "peBasicExclExtraTTM") (.num 0)),
      volume := some (jsOr (jsOptGet metricObj "10DayAverageTradingVolume") (.num 0)) }

/-- The profile block of the per-symbol body (only `?.` accesses; never
throws). -/
def applyProfile (r : StockResult) (symbol : String) (profile : Json) : StockResult :=
  { r with
    profile := some profile,
    name := some (jsOr (jsOptGet profile "name") (.str symbol)),
    marketCap := some (jsOr (jsOptGet profile "marketCapitalization") (.num 0)),
    industry := some (jsOr (jsOptGet profile "finnhubIndustry") (.str "")),
    country := some (jsOr (jsOptGet profile "country") (.str "")) }

/-- The quote block of the per-symbol body (only `?.` accesses; never
throws). -/
def applyQuote (r : StockResult) (quote : Json) : StockResult :=
  { r with
    quote := some quote,
    price := some (jsOr (jsOptGet quote "c") (.num 0)),
    change := some (jsOr (jsOptGet quote "d") (.num 0)),
    changePercent := some (jsOr (jsOptGet quote "dp") (.num 0)),
    previousClose := some (jsOr (jsOptGet quote "pc") (.num 0)) }

/-- The `try` block of the per-symbol task: the three optional
sub-resource fetches in source order, stopping at the first thrown
error. -/
def fetchSymbolTry (net : String → NetResp) (now : Int) (st : ApiCacheState)
    (symbol token : String) (eps : Endpoints) :
    Except FetchError StockResult × ApiCacheState :=
  let r0 : StockResult := { symbol := symbol }
  let step1 : Except FetchError StockResult × ApiCacheState :=
    if eps.metrics then
      let key := generateCacheKey "metrics" [("symbol", .str symbol), ("token", .str token)]
      let m := getOrFetch net now st key (metricsUrl symbol token) CACHE_TTL.STOCK_METRICS
      match m.1 with
      | .error e => (.error e, m.2)
      | .ok metrics => (applyMetrics r0 metrics, m.2)
    else (.ok r0, st)
  match step1 with
  | (.error e, st1) => (.error e, st1)
  | (.ok r1, st1) =>
    let step2 : Except FetchError StockResult × ApiCacheState :=
      if eps.profile then
        let key := generateCacheKey "profile" [("symbol", .str symbol), ("token", .str token)]
        let p := getOrFetch net now st1 key (profileUrl symbol token) CACHE_TTL.COMPANY_PROFILE
        match p.1 with
        | .error e => (.error e, p.2)
        | .ok profile => (.ok (applyProfile r1 symbol profile), p.2)
      else (.ok r1, st1)
    match step2 with
    | (.error e, st2) => (.error e, st2)
    | (.ok r2, st2) =>
      if eps.quote then
        let key := generateCacheKey "quote" [("symbol", .str symbol), ("token", .str token)]
        let q := getOrFetch net now st2 key (quoteUrl symbol token) CACHE_TTL.STOCK_QUOTE
        match q.1 with
        | .error e => (.error e, q.2)
        | .ok quote => (.ok (applyQuote r2 quote), q.2)
      else (.ok r2, st2)

/-- The degraded placeholder the `catch` block substitutes for a failed
symbol. -/
def degradedResult (symbol : String) : StockResult :=
  { symbol := symbol,
    name := some (.str symbol),
    price := some (.num 0),
    fiftyTwoWeekHigh := some (.num 0),
    fiftyTwoWeekLow := some (.num 0),
    error := some ("Failed to fetch " ++ symbol) }

/-- One entity task of `cachedMultiStockFetch`: the `try` block with the
`catch` boundary that converts any thrown error into the degraded
placeholder (state mutations made before the throw are kept — the JS
singleton cache is shared). -/
def fetchSymbol (net : String → NetResp) (now : Int) (st : ApiCacheState)
    (symbol token : String) (eps : Endpoints) : StockResult × ApiCacheState :=
  match fetchSymbolTry net now st symbol token eps with
  | (.ok r, st') => (r, st')
  | (.error _, st') => (degradedResult symbol, st')

/-- Function `cachedMultiStockFetch(symbols, token, endpoints)`: one task per
symbol, joined by `Promise.all`, which preserves the input order.  The
JS tasks interleave at await points on one event loop; they are
serialized here in input order (for the modelled scenarios every task
touches its own cache keys, so the interleaving does not affect the
per-symbol results). -/
def cachedMultiStockFetch (net : String → NetResp) (now : Int) (st : ApiCacheState)
    (symbols : List String) (token : String) (eps : Endpoints) :
    List StockResult × ApiCacheState :=
  match symbols with
  | [] => ([], st)
  | s :: rest =>
    let r := fetchSymbol net now st s token eps
    let rs := cachedMultiStockFetch net now r.2 rest token eps
    (r.1 :: rs.1, rs.2)

/-! ## Rate limiter lemmas -/

/-- A fresh or missing window is replaced and the call admits. -/
theorem isRateLimited_none (st : ApiCacheState) (now : Int) (d : String)
    (maxR : Nat) (w : Int) (h : mapGet st.rateLimits d = none) :
    ApiCache.isRateLimited st now d maxR w =
      (false, { st with rateLimits := mapSet st.rateLimits d ⟨1, now + w⟩ }) := by
  unfold ApiCache.isRateLimited
  rw [h]

/-- A lapsed window is replaced and the call admits. -/
theorem isRateLimited_lapsed (st : ApiCacheState) (now : Int) (d : String)
    (maxR : Nat) (w : Int) (e : RateLimitEntry)
    (he : mapGet st.rateLimits d = some e) (hl : e.resetTime < now) :
    ApiCache.isRateLimited st now d maxR w =
      (false, { st with rateLimits := mapSet st.rateLimits d ⟨1, now + w⟩ }) := by
  unfold ApiCache.isRateLimited
  rw [he]
  simp [hl]

/-- An unexpired, exhausted window reports limited without mutating. -/
theorem isRateLimited_exhausted (st : ApiCacheState) (now : Int) (d : String)
    (maxR : Nat) (w : Int) (e : RateLimitEntry)
    (he : mapGet st.rateLimits d = some e) (hl : ¬ e.resetTime < now)
    (hc : maxR ≤ e.count) :
    ApiCache.isRateLimited st now d maxR w = (true, st) := by
  unfold ApiCache.isRateLimited
  rw [he]
  simp [hl, hc]

/-- An unexpired window below the budget increments and admits. -/
theorem isRateLimited_increment (st : ApiCacheState) (now : Int) (d : String)
    (maxR : Nat) (w : Int) (e : RateLimitEntry)
    (he : mapGet st.rateLimits d = some e) (hl : ¬ e.resetTime < now)
    (hc : e.count < maxR) :
    ApiCache.isRateLimited st now d maxR w =
      (false,
        { st with
          rateLimits := mapSet st.rateLimits d ⟨e.count + 1, e.resetTime⟩ }) := by
  unfold ApiCache.isRateLimited
  rw [he]
  simp [hl, Nat.not_le.mpr hc]

/-- The `isRateLimited` method never touches the response cache. -/
theorem isRateLimited_cache_eq (st : ApiCacheState) (now : Int) (d : String)
    (maxR : Nat) (w : Int) :
    (ApiCache.isRateLimited st now d maxR w).2.cache = st.cache := by
  unfold ApiCache.isRateLimited
  cases h : mapGet st.rateLimits d with
  | none => rfl
  | some e =>
    by_cases hl : e.resetTime < now
    · simp [hl]
    · by_cases hc : maxR ≤ e.count
      · simp [hl, hc]
      · simp [hl, hc]

/-- The experiment of the spec's rate-limiter property: `n` successive
`isRateLimited(domain, maxRequests, windowMs)` calls with no time
elapsing, returning the list of results in call order and the final
state. -/
def rlCalls (now : Int) (domain : String) (maxRequests : Nat) (windowMs : Int) :
    Nat → ApiCacheState → List Bool × ApiCacheState
  | 0, st => ([], st)
  | n + 1, st =>
    let r := ApiCache.isRateLimited st now domain maxRequests windowMs
    let rest := rlCalls now domain maxRequests windowMs n r.2
    (r.1 :: rest.1, rest.2)

/-- Steady-state behaviour of repeated calls inside one window: with the
stored count at `c ≥ 1` and the window not lapsed, the next `k` calls
admit until the count reaches `maxR` and report limited from then on. -/
theorem rlCalls_steady (now : Int) (d : String) (maxR : Nat) (w : Int)
    (hw : 0 ≤ w) :
    ∀ (k c : Nat) (st : ApiCacheState),
      mapGet st.rateLimits d = some ⟨c, now + w⟩ → 1 ≤ c →
      (rlCalls now d maxR w k st).1 =
        List.replicate (min k (maxR - c)) false ++
          List.replicate (k - (maxR - c)) true := by
  intro k
  induction k with
  | zero =>
    intro c st _ _
    simp [rlCalls]
  | succ k ih =>
    intro c st he hc
    have hnl : ¬ ((⟨c, now + w⟩ : RateLimitEntry).resetTime < now) := by
      simp only [RateLimitEntry.mk.injEq]
      omega
    by_cases hcm : c < maxR
    · have hstep := isRateLimited_increment st now d maxR w ⟨c, now + w⟩ he hnl hcm
      have htail := ih (c + 1)
        { st with rateLimits := mapSet st.rateLimits d ⟨c + 1, now + w⟩ }
        (by simpa using mapGet_mapSet_self st.rateLimits d ⟨c + 1, now + w⟩)
        (by omega)
      simp only [rlCalls, hstep, htail]
      have h1 : min (k + 1) (maxR - c) = min k (maxR - (c + 1)) + 1 := by omega
      have h2 : (k + 1) - (maxR - c) = k - (maxR - (c + 1)) := by omega
      rw [h1, h2, List.replicate_succ, List.cons_append]
    · have hstep := isRateLimited_exhausted st now d maxR w ⟨c, now + w⟩ he hnl
        (show maxR ≤ c by omega)
      have htail := ih c st he hc
      simp only [rlCalls, hstep, htail]
      have h1 : min (k + 1) (maxR - c) = 0 := by omega
      have h2 : min k (maxR - c) = 0 := by omega
      have h3 : (k + 1) - (maxR - c) = (k - (maxR - c)) + 1 := by omega
      rw [h1, h2, h3, List.replicate_succ]
      simp

/-- C1: with no stored window for the domain, `maxRequests + 1`
back-to-back `isRateLimited(d, maxRequests, windowMs)` calls admit the
first `maxRequests` and report limited on the last. -/
theorem rateLimiter_admits_first_n_then_limits (st : ApiCacheState) (now : Int)
    (d : String) (maxR : Nat) (w : Int)
    (hmax : 1 ≤ maxR) (hw : 0 ≤ w)
    (hfresh : mapGet st.rateLimits d = none) :
    (rlCalls now d maxR w (maxR + 1) st).1 =
      List.replicate maxR false ++ [true] := by
  have hstep := isRateLimited_none st now d maxR w hfresh
  have htail := rlCalls_steady now d maxR w hw maxR 1
    { st with rateLimits := mapSet st.rateLimits d ⟨1, now + w⟩ }
    (by simpa using mapGet_mapSet_self st.rateLimits d ⟨1, now + w⟩)
    le_rfl
  simp only [rlCalls, hstep, htail]
  have h1 : min maxR (maxR - 1) = maxR - 1 := by omega
  have h2 : maxR - (maxR - 1) = 1 := by omega
  rw [h1, h2]
  obtain ⟨m, hm⟩ : ∃ m, maxR = m + 1 := ⟨maxR - 1, by omega⟩
  subst hm
  simp [List.replicate_succ]

/-- C1 witness: 61 calls to `isRateLimited('finnhub.io', 60, 60000)`
from the empty state: calls 1–60 admit, call 61 is limited. -/
theorem rateLimiter_admits_first_n_then_limits_witness :
    (1 ≤ 60 ∧ (0 : Int) ≤ 60000 ∧
      mapGet ApiCacheState.empty.rateLimits "finnhub.io" = none) ∧
    (rlCalls 0 "finnhub.io" 60 60000 61 ApiCacheState.empty).1 =
      List.replicate 60 false ++ [true] :=
  ⟨⟨by decide, by decide, rfl⟩,
    rateLimiter_admits_first_n_then_limits ApiCacheState.empty 0 "finnhub.io"
      60 60000 (by decide) (by decide) rfl⟩

/-- C6: on a lapsed window (stored `resetTime` strictly before `now`),
`isRateLimited` starts a fresh window with count 1 and reset time
`now + windowMs`, admits, and leaves the response cache alone — whatever
the old count was. -/
theorem rateLimiter_window_rollover (st : ApiCacheState) (now : Int)
    (d : String) (maxR : Nat) (w : Int) (e : RateLimitEntry)
    (he : mapGet st.rateLimits d = some e) (hl : e.resetTime < now) :
    (ApiCache.isRateLimited st now d maxR w).1 = false ∧
    mapGet (ApiCache.isRateLimited st now d maxR w).2.rateLimits d =
      some ⟨1, now + w⟩ ∧
    (ApiCache.isRateLimited st now d maxR w).2.cache = st.cache := by
  rw [isRateLimited_lapsed st now d maxR w e he hl]
  exact ⟨rfl, mapGet_mapSet_self st.rateLimits d ⟨1, now + w⟩, rfl⟩

/-- C6 witness: a window for `finnhub.io` that reached count 60 but
whose reset time 50 is past at `now = 100` is rolled over: the call
admits and the fresh window is `⟨1, 100 + 60000⟩`. -/
theorem rateLimiter_window_rollover_witness :
    (mapGet (ApiCacheState.mk [] [("finnhub.io", ⟨60, 50⟩)]).rateLimits
        "finnhub.io" = some ⟨60, 50⟩ ∧ (50 : Int) < 100) ∧
    ((ApiCache.isRateLimited ⟨[], [("finnhub.io", ⟨60, 50⟩)]⟩ 100 "finnhub.io"
        60 60000).1 = false ∧
      mapGet (ApiCache.isRateLimited ⟨[], [("finnhub.io", ⟨60, 50⟩)]⟩ 100
          "finnhub.io" 60 60000).2.rateLimits "finnhub.io" =
        some ⟨1, 100 + 60000⟩ ∧
      (ApiCache.isRateLimited ⟨[], [("finnhub.io", ⟨60, 50⟩)]⟩ 100 "finnhub.io"
          60 60000).2.cache = ([] : List (String × CacheEntry))) :=
  ⟨⟨rfl, by decide⟩,
    rateLimiter_window_rollover ⟨[], [("finnhub.io", ⟨60, 50⟩)]⟩ 100
      "finnhub.io" 60 60000 ⟨60, 50⟩ rfl (by decide)⟩

/-- C9: `getRemainingRequests` returns the state unchanged (it is a pure
read, even on a lapsed window), and on a stored window it reports
`max 0 (maxRequests - count)` together with the stored reset time. -/
theorem getRemainingRequests_pure_read (st : ApiCacheState) (now : Int)
    (d : String) (maxR : Nat) :
    (ApiCache.getRemainingRequests st now d maxR).2 = st ∧
    (∀ e : RateLimitEntry, mapGet st.rateLimits d = some e →
      (ApiCache.getRemainingRequests st now d maxR).1 =
        (max 0 ((maxR : Int) - (e.count : Int)), e.resetTime)) := by
  constructor
  · unfold ApiCache.getRemainingRequests
    cases mapGet st.rateLimits d <;> rfl
  · intro e he
    unfold ApiCache.getRemainingRequests
    rw [he]

/-- C9 witness: on a lapsed, over-consumed window (count 70 of budget
60, reset time 50 with `now = 100`) the read reports 0 remaining and the
stored reset time, and the state — cache and rate limits — is exactly
unchanged. -/
theorem getRemainingRequests_pure_read_witness :
    (mapGet (ApiCacheState.mk [] [("finnhub.io", ⟨70, 50⟩)]).rateLimits
        "finnhub.io" = some ⟨70, 50⟩) ∧
    (ApiCache.getRemainingRequests ⟨[], [("finnhub.io", ⟨70, 50⟩)]⟩ 100
        "finnhub.io" 60).2 = ⟨[], [("finnhub.io", ⟨70, 50⟩)]⟩ ∧
    (ApiCache.getRemainingRequests ⟨[], [("finnhub.io", ⟨70, 50⟩)]⟩ 100
        "finnhub.io" 60).1 = (max 0 ((60 : Int) - (70 : Int)), 50) :=
  ⟨rfl,
    (getRemainingRequests_pure_read ⟨[], [("finnhub.io", ⟨70, 50⟩)]⟩ 100
      "finnhub.io" 60).1,
    (getRemainingRequests_pure_read ⟨[], [("finnhub.io", ⟨70, 50⟩)]⟩ 100
      "finnhub.io" 60).2 ⟨70, 50⟩ rfl⟩

/-! ## Cache store lemmas -/

/-- A `mapSet` either keeps the key list unchanged (update in place) or
appends the new key. -/
theorem map_fst_mapSet {α : Type} (m : List (String × α)) (k : String) (v : α) :
    (mapSet m k v).map Prod.fst =
      if m.any (fun p => p.1 == k) then m.map Prod.fst
      else m.map Prod.fst ++ [k] := by
  unfold mapSet
  by_cases hany : m.any (fun p => p.1 == k) = true
  · rw [if_pos hany, if_pos hany, List.map_map]
    apply List.map_congr_left
    intro p _
    by_cases hpk : p.1 = k
    · simp [hpk]
    · simp [hpk]
  · rw [if_neg hany, if_neg hany, List.map_append]
    rfl

/-- A false `any` for the key means the key is not among the stored
keys. -/
theorem not_mem_keys_of_not_any {α : Type} (m : List (String × α)) (k : String)
    (hany : m.any (fun p => p.1 == k) = false) : k ∉ m.map Prod.fst := by
  intro hk
  obtain ⟨p, hp, hpk⟩ := List.mem_map.mp hk
  have : m.any (fun p => p.1 == k) = true :=
    List.any_eq_true.mpr ⟨p, hp, by simp [hpk]⟩
  rw [hany] at this
  exact Bool.noConfusion this

/-- A `mapSet` preserves distinctness of the stored keys. -/
theorem nodup_keys_mapSet {α : Type} (m : List (String × α)) (k : String) (v : α)
    (hnd : (m.map Prod.fst).Nodup) : ((mapSet m k v).map Prod.fst).Nodup := by
  rw [map_fst_mapSet]
  by_cases hany : m.any (fun p => p.1 == k) = true
  · rwa [if_pos hany]
  · rw [if_neg hany]
    have hk : k ∉ m.map Prod.fst :=
      not_mem_keys_of_not_any m k (Bool.not_eq_true _ ▸ eq_false_of_ne_true hany)
    simp [List.nodup_append, hnd, hk]

/-- Deleting a present key from a map with distinct keys shrinks it by
exactly one entry. -/
theorem length_filter_ne_of_mapGet_some {α : Type} (m : List (String × α))
    (k : String) (v : α) (hnd : (m.map Prod.fst).Nodup)
    (hget : mapGet m k = some v) :
    (m.filter (fun p => p.1 != k)).length + 1 = m.length := by
  induction m with
  | nil => simp [mapGet] at hget
  | cons p rest ih =>
    rw [List.map_cons, List.nodup_cons] at hnd
    by_cases hpk : p.1 = k
    · have hkeep : rest.filter (fun p => p.1 != k) = rest := by
        apply List.filter_eq_self.mpr
        intro q hq
        have : q.1 ≠ k := by
          intro hqk
          exact hnd.1 (hpk ▸ hqk ▸ List.mem_map_of_mem Prod.fst hq)
        simpa using this
      have hdrop : (p.1 != k) = false := by simpa using hpk
      simp [List.filter_cons, hdrop, hkeep]
    · have hkeep : (p.1 != k) = true := by simpa using hpk
      have hget' : mapGet rest k = some v := by
        rw [show mapGet (p :: rest) k =
            if p.1 = k then some p.2 else mapGet rest k from rfl, if_neg hpk] at hget
        exact hget
      simp only [List.filter_cons, hkeep, if_true, List.length_cons]
      rw [← ih hnd.2 hget']

/-- After deleting a key, looking it up misses. -/
theorem mapGet_filter_ne {α : Type} (m : List (String × α)) (k : String) :
    mapGet (m.filter (fun p => p.1 != k)) k = none := by
  induction m with
  | nil => rfl
  | cons p rest ih =>
    by_cases hpk : p.1 = k
    · have hdrop : (p.1 != k) = false := by simpa using hpk
      simp [List.filter_cons, hdrop, ih]
    · have hkeep : (p.1 != k) = true := by simpa using hpk
      simp only [List.filter_cons, hkeep, if_true]
      rw [show mapGet (p :: rest.filter (fun p => p.1 != k)) k =
          if p.1 = k then some p.2
          else mapGet (rest.filter (fun p => p.1 != k)) k from rfl, if_neg hpk]
      exact ih

/-- A `get` on a missing key misses without touching the state. -/
theorem get_eq_none (st : ApiCacheState) (now : Int) (key : String)
    (he : mapGet st.cache key = none) :
    ApiCache.get st now key = (none, st) := by
  unfold ApiCache.get
  rw [he]

/-- A `get` on an unexpired entry returns the stored data and leaves the
state untouched. -/
theorem get_eq_some (st : ApiCacheState) (now : Int) (key : String)
    (e : CacheEntry) (he : mapGet st.cache key = some e)
    (hx : ¬ e.expiry < now) :
    ApiCache.get st now key = (some e.data, st) := by
  unfold ApiCache.get
  rw [he]
  simp [hx]

/-- A `get` on an expired entry misses and lazily evicts the entry. -/
theorem get_eq_expired (st : ApiCacheState) (now : Int) (key : String)
    (e : CacheEntry) (he : mapGet st.cache key = some e)
    (hx : e.expiry < now) :
    ApiCache.get st now key =
      (none, { st with cache := st.cache.filter (fun p => p.1 != key) }) := by
  unfold ApiCache.get
  rw [he]
  simp [hx]

/-- C7 (amended to negative ttl): a `set` with a negative ttl stores an
already expired entry, so a `get` at the `set` time or later misses,
lazily evicts the entry, and `size` afterwards reflects the eviction. -/
theorem set_negative_ttl_get_absent (st : ApiCacheState) (now later : Int)
    (k : String) (v : Json) (t : Int)
    (ht : t < 0) (hnow : now ≤ later)
    (hnd : (st.cache.map Prod.fst).Nodup) :
    (ApiCache.get (ApiCache.set st now k v (some t)) later k).1 = none ∧
    mapGet (ApiCache.get (ApiCache.set st now k v (some t)) later k).2.cache k =
      none ∧
    ApiCache.size (ApiCache.get (ApiCache.set st now k v (some t)) later k).2 + 1 =
      ApiCache.size (ApiCache.set st now k v (some t)) := by
  have httl : effectiveTtl (some t) = t := by
    show (if t = 0 then defaultTTL else t) = t
    rw [if_neg (show ¬ t = 0 by omega)]
  have hcache : (ApiCache.set st now k v (some t)).cache =
      mapSet st.cache k ⟨v, now, now + t⟩ := by
    show mapSet st.cache k ⟨v, now, now + effectiveTtl (some t)⟩ =
      mapSet st.cache k ⟨v, now, now + t⟩
    rw [httl]
  have he : mapGet (ApiCache.set st now k v (some t)).cache k =
      some ⟨v, now, now + t⟩ := by
    rw [hcache]
    exact mapGet_mapSet_self st.cache k ⟨v, now, now + t⟩
  have hexp : (⟨v, now, now + t⟩ : CacheEntry).expiry < later := by
    show now + t < later
    omega
  have hget := get_eq_expired (ApiCache.set st now k v (some t)) later k
    ⟨v, now, now + t⟩ he hexp
  refine ⟨by rw [hget], ?_, ?_⟩
  · rw [hget]
    exact mapGet_filter_ne _ k
  · rw [hget]
    unfold ApiCache.size
    exact length_filter_ne_of_mapGet_some _ k ⟨v, now, now + t⟩
      (hcache ▸ nodup_keys_mapSet st.cache k ⟨v, now, now + t⟩ hnd) he

/-- C7 witness: `set('k', 'v', -5)` at time 0, read back at time 0: the
read misses, the entry is gone, and the store shrinks from 1 entry to
0. -/
theorem set_negative_ttl_get_absent_witness :
    ((-5 : Int) < 0 ∧ (0 : Int) ≤ 0 ∧
      ((ApiCacheState.empty.cache.map Prod.fst).Nodup)) ∧
    ((ApiCache.get (ApiCache.set ApiCacheState.empty 0 "k" (.str "v") (some (-5)))
        0 "k").1 = none ∧
      mapGet (ApiCache.get (ApiCache.set ApiCacheState.empty 0 "k" (.str "v")
          (some (-5))) 0 "k").2.cache "k" = none ∧
      ApiCache.size (ApiCache.get (ApiCache.set ApiCacheState.empty 0 "k"
          (.str "v") (some (-5))) 0 "k").2 + 1 =
        ApiCache.size (ApiCache.set ApiCacheState.empty 0 "k" (.str "v")
          (some (-5)))) :=
  ⟨⟨by decide, by decide, List.nodup_nil⟩,
    set_negative_ttl_get_absent ApiCacheState.empty 0 0 "k" (.str "v") (-5)
      (by decide) (by decide) List.nodup_nil⟩

/-- C7 counterexample: with `ttl = 0` the JS falsy-ttl fallback
(`ttlMs || defaultTTL`) stores the entry with the one-minute default
instead, so a `get` at time ≥ ttl after the `set` returns the value —
not absent — and even `cleanup` at that time evicts nothing. -/
theorem set_zero_ttl_not_absent :
    (ApiCache.get (ApiCache.set ApiCacheState.empty 0 "k" (.str "v") (some 0))
        0 "k").1 = some (.str "v") ∧
    ApiCache.size (ApiCache.cleanup (ApiCache.set ApiCacheState.empty 0 "k"
        (.str "v") (some 0)) 0) = 1 := by
  exact ⟨rfl, rfl⟩

/-- C8 (amended): `set` overwrites the key wholesale with an entry whose
`timestamp` is `now` and whose `expiry` is `now` plus the effective ttl;
the effective ttl is the supplied ttl when that is nonzero and the
default TTL when the ttl is omitted — or supplied as `0`.  Whenever the
supplied ttl is nonnegative (or omitted), the stored entry satisfies the
`expiresAt > createdAt` invariant. -/
theorem set_stores_entry_spec (st : ApiCacheState) (now : Int) (k : String)
    (v : Json) (ttlMs : Option Int) (ht : ∀ t ∈ ttlMs, 0 ≤ t) :
    (ApiCache.set st now k v ttlMs).cache =
      mapSet st.cache k ⟨v, now, now + effectiveTtl ttlMs⟩ ∧
    (ttlMs = none → effectiveTtl ttlMs = defaultTTL) ∧
    (∀ t : Int, ttlMs = some t → t ≠ 0 → effectiveTtl ttlMs = t) ∧
    (∀ e : CacheEntry, mapGet (ApiCache.set st now k v ttlMs).cache k = some e →
      e.timestamp = now ∧ e.expiry = now + effectiveTtl ttlMs ∧
        e.timestamp < e.expiry) := by
  have hpos : 0 < effectiveTtl ttlMs := by
    cases ttlMs with
    | none =>
      show (0 : Int) < defaultTTL
      decide
    | some t =>
      have h0 : 0 ≤ t := ht t rfl
      show (0 : Int) < if t = 0 then defaultTTL else t
      by_cases hz : t = 0
      · rw [if_pos hz]
        decide
      · rw [if_neg hz]
        omega
  refine ⟨rfl, fun h => by subst h; rfl, fun t h hne => ?_, fun e he => ?_⟩
  · subst h
    show (if t = 0 then defaultTTL else t) = t
    rw [if_neg hne]
  · rw [show (ApiCache.set st now k v ttlMs).cache =
        mapSet st.cache k ⟨v, now, now + effectiveTtl ttlMs⟩ from rfl,
      mapGet_mapSet_self] at he
    cases Option.some.inj he
    exact ⟨rfl, rfl, by show now < now + effectiveTtl ttlMs; omega⟩

/-- C8 witness: `set('k', v, 5)` at time 3 stores exactly
`⟨v, 3, 3 + 5⟩`, whose expiry exceeds its creation time. -/
theorem set_stores_entry_spec_witness :
    (∀ t ∈ (some 5 : Option Int), 0 ≤ t) ∧
    ((ApiCache.set ApiCacheState.empty 3 "k" (.num 1) (some 5)).cache =
      mapSet ApiCacheState.empty.cache "k" ⟨.num 1, 3, 3 + effectiveTtl (some 5)⟩ ∧
    (∀ e : CacheEntry,
      mapGet (ApiCache.set ApiCacheState.empty 3 "k" (.num 1) (some 5)).cache "k" =
        some e →
      e.timestamp = 3 ∧ e.expiry = 3 + effectiveTtl (some 5) ∧
        e.timestamp < e.expiry)) :=
  ⟨fun t h => by cases h; decide,
    (set_stores_entry_spec ApiCacheState.empty 3 "k" (.num 1) (some 5)
      (fun t h => by cases h; decide)).1,
    (set_stores_entry_spec ApiCacheState.empty 3 "k" (.num 1) (some 5)
      (fun t h => by cases h; decide)).2.2.2⟩

/-- C8 counterexample: a negative supplied ttl stores an entry with
`expiry < timestamp`, breaking the `expiresAt > createdAt` invariant,
and a supplied ttl of `0` stores `expiry = now + defaultTTL` rather than
`now + 0`. -/
theorem set_ttl_invariant_counterexample :
    (mapGet (ApiCache.set ApiCacheState.empty 0 "k" .null (some (-1))).cache "k" =
      some ⟨.null, 0, -1⟩ ∧ (-1 : Int) < 0) ∧
    (mapGet (ApiCache.set ApiCacheState.empty 0 "k" .null (some 0)).cache "k" =
      some ⟨.null, 0, 60000⟩ ∧ (60000 : Int) ≠ 0 + 0) := by
  exact ⟨⟨rfl, by decide⟩, ⟨rfl, by decide⟩⟩

/-! ## Cache key generator -/

/-- Record lookup is invariant under permutation when the keys are
pairwise distinct (as they are in a JS record). -/
theorem mapGet_perm {α : Type} {l1 l2 : List (String × α)} (hp : l1.Perm l2) :
    (l1.map Prod.fst).Nodup → ∀ k, mapGet l1 k = mapGet l2 k := by
  induction hp with
  | nil =>
    intro _ k
    rfl
  | cons x hperm ih =>
    intro hnd k
    obtain ⟨a, b⟩ := x
    have htail := ih (by
      rw [List.map_cons, List.nodup_cons] at hnd
      exact hnd.2) k
    by_cases hak : a = k
    · simp [mapGet, hak]
    · simp [mapGet, hak, htail]
  | swap x y l =>
    intro hnd k
    obtain ⟨a, b⟩ := x
    obtain ⟨c, d⟩ := y
    have hac : c ≠ a := by
      simp only [List.map_cons, List.nodup_cons, List.mem_cons] at hnd
      intro h
      exact hnd.1 (Or.inl h)
    by_cases hck : c = k
    · have hak : ¬ a = k := fun h => hac (hck.trans h.symm)
      simp [mapGet, hck, hak]
    · by_cases hak : a = k
      · simp [mapGet, hck, hak]
      · simp [mapGet, hck, hak]
  | trans h1 h2 ih1 ih2 =>
    intro hnd k
    have hnd2 := (h1.map Prod.fst).nodup hnd
    rw [ih1 hnd k, ih2 hnd2 k]

/-- C5: `generateCacheKey` is invariant under permutation of the
parameter record's key order (keys pairwise distinct, as in a JS
record). -/
theorem generateCacheKey_perm_invariant (endpoint : String)
    (p1 p2 : List (String × Json))
    (hnd : (p1.map Prod.fst).Nodup) (hp : p1.Perm p2) :
    generateCacheKey endpoint p1 = generateCacheKey endpoint p2 := by
  have hk : (p1.map Prod.fst).Perm (p2.map Prod.fst) := hp.map Prod.fst
  have hsorted :
      List.insertionSort (fun a b => a ≤ b) (p1.map Prod.fst) =
        List.insertionSort (fun a b => a ≤ b) (p2.map Prod.fst) := by
    haveI : IsAntisymm String (fun a b => a ≤ b) := ⟨fun _ _ h1 h2 => le_antisymm h1 h2⟩
    haveI : IsTotal String (fun a b => a ≤ b) := ⟨fun a b => le_total a b⟩
    haveI : IsTrans String (fun a b => a ≤ b) := ⟨fun _ _ _ h1 h2 => le_trans h1 h2⟩
    refine List.eq_of_perm_of_sorted ?_
      (List.sorted_insertionSort (fun a b : String => a ≤ b) (p1.map Prod.fst))
      (List.sorted_insertionSort (fun a b : String => a ≤ b) (p2.map Prod.fst))
    exact (List.perm_insertionSort _ _).trans
      (hk.trans (List.perm_insertionSort _ _).symm)
  have hget : (fun k => (mapGet p1 k).map (fun v => (k, v))) =
      (fun k => (mapGet p2 k).map (fun v => (k, v))) := by
    funext k
    rw [mapGet_perm hp hnd k]
  unfold generateCacheKey
  rw [hsorted, hget]

/-- C5 witness: the two orderings of `{symbol: 'AAA', token: 'T'}`
produce the same key for the `metrics` endpoint. -/
theorem generateCacheKey_perm_invariant_witness :
    (((([("symbol", Json.str "AAA"), ("token", Json.str "T")] :
        List (String × Json)).map Prod.fst).Nodup) ∧
      ([("symbol", Json.str "AAA"), ("token", Json.str "T")] :
        List (String × Json)).Perm
        [("token", Json.str "T"), ("symbol", Json.str "AAA")]) ∧
    generateCacheKey "metrics" [("symbol", .str "AAA"), ("token", .str "T")] =
      generateCacheKey "metrics" [("token", .str "T"), ("symbol", .str "AAA")] :=
  ⟨⟨by decide, List.Perm.swap _ _ _⟩,
    generateCacheKey_perm_invariant "metrics"
      [("symbol", .str "AAA"), ("token", .str "T")]
      [("token", .str "T"), ("symbol", .str "AAA")]
      (by decide) (List.Perm.swap _ _ _)⟩

/-! ## cachedFetch path lemmas -/

/-- A truthy, unexpired cached value is returned immediately: no miss
path, no state change, no network call. -/
theorem cachedFetch_hit (net : String → NetResp) (now : Int) (st : ApiCacheState)
    (url : String) (ttlMs : Option Int) (e : CacheEntry)
    (he : mapGet st.cache (generateCacheKey url []) = some e)
    (hx : ¬ e.expiry < now) (htr : e.data.truthy = true) :
    cachedFetch net now st url ttlMs = ⟨.ok e.data, st, 0⟩ := by
  simp only [cachedFetch]
  rw [get_eq_some st now (generateCacheKey url []) e he hx]
  simp [htr]

/-- When the cache read yields nothing truthy, `cachedFetch` runs the
miss path on the post-read state. -/
theorem cachedFetch_eq_miss (net : String → NetResp) (now : Int) (st : ApiCacheState)
    (url : String) (ttlMs : Option Int)
    (hmiss : ∀ v, (ApiCache.get st now (generateCacheKey url [])).1 = some v →
      v.truthy = false) :
    cachedFetch net now st url ttlMs =
      cachedFetchMiss net now (ApiCache.get st now (generateCacheKey url [])).2
        url ttlMs (generateCacheKey url []) := by
  simp only [cachedFetch]
  cases hv : (ApiCache.get st now (generateCacheKey url [])).1 with
  | none => rfl
  | some v =>
    have := hmiss v hv
    simp [this]

/-- Admitted miss with a successful response: the parsed body is cached
and returned, with one network call made. -/
theorem cachedFetchMiss_ok (net : String → NetResp) (now : Int) (st : ApiCacheState)
    (url : String) (ttlMs : Option Int) (key : String) (d : Json)
    (hrl : (ApiCache.isRateLimited st now (extractDomain url)
      (rateBudgetFor (extractDomain url)).maxRequests
      (rateBudgetFor (extractDomain url)).windowMs).1 = false)
    (hok : (net url).ok = true) (hbody : (net url).body = some d) :
    cachedFetchMiss net now st url ttlMs key =
      ⟨.ok d,
        ApiCache.set (ApiCache.isRateLimited st now (extractDomain url)
          (rateBudgetFor (extractDomain url)).maxRequests
          (rateBudgetFor (extractDomain url)).windowMs).2 now key d ttlMs,
        1⟩ := by
  simp only [cachedFetchMiss]
  rw [hrl]
  simp [hok, hbody]

/-- Admitted miss with a non-success status: an `HttpError` carrying the
status is thrown, nothing is cached, one network call was made. -/
theorem cachedFetchMiss_httpError (net : String → NetResp) (now : Int)
    (st : ApiCacheState) (url : String) (ttlMs : Option Int) (key : String)
    (hrl : (ApiCache.isRateLimited st now (extractDomain url)
      (rateBudgetFor (extractDomain url)).maxRequests
      (rateBudgetFor (extractDomain url)).windowMs).1 = false)
    (hok : (net url).ok = false) :
    cachedFetchMiss net now st url ttlMs key =
      ⟨.error (.httpError (net url).status (net url).statusText),
        (ApiCache.isRateLimited st now (extractDomain url)
          (rateBudgetFor (extractDomain url)).maxRequests
          (rateBudgetFor (extractDomain url)).windowMs).2,
        1⟩ := by
  simp only [cachedFetchMiss]
  rw [hrl]
  simp [hok]

/-- Admitted miss whose body fails to parse: a `ParseError` is thrown,
nothing is cached, one network call was made. -/
theorem cachedFetchMiss_parseError (net : String → NetResp) (now : Int)
    (st : ApiCacheState) (url : String) (ttlMs : Option Int) (key : String)
    (hrl : (ApiCache.isRateLimited st now (extractDomain url)
      (rateBudgetFor (extractDomain url)).maxRequests
      (rateBudgetFor (extractDomain url)).windowMs).1 = false)
    (hok : (net url).ok = true) (hbody : (net url).body = none) :
    cachedFetchMiss net now st url ttlMs key =
      ⟨.error .parseError,
        (ApiCache.isRateLimited st now (extractDomain url)
          (rateBudgetFor (extractDomain url)).maxRequests
          (rateBudgetFor (extractDomain url)).windowMs).2,
        1⟩ := by
  simp only [cachedFetchMiss]
  rw [hrl]
  simp [hok, hbody]

/-! ## Claims about cachedFetch -/

/-- C2 (amended to truthy values): a cache hit on an unexpired entry
whose stored value is truthy returns it with no network call, no
rate-limit check and no state change at all; consequently two
back-to-back `cachedFetch` calls for the same URL — the first fetching a
truthy payload — make exactly one network call, the second being served
from cache. -/
theorem cachedFetch_hit_frame_and_second_call_cached :
    (∀ (net : String → NetResp) (now : Int) (st : ApiCacheState) (url : String)
        (ttlMs : Option Int) (e : CacheEntry),
      mapGet st.cache (generateCacheKey url []) = some e →
      ¬ e.expiry < now → e.data.truthy = true →
      cachedFetch net now st url ttlMs = ⟨.ok e.data, st, 0⟩) ∧
    (∀ (net : String → NetResp) (now : Int) (st : ApiCacheState) (url : String)
        (d : Json),
      mapGet st.cache (generateCacheKey url []) = none →
      mapGet st.rateLimits (extractDomain url) = none →
      (net url).ok = true → (net url).body = some d → d.truthy = true →
      (cachedFetch net now st url none).result = .ok d ∧
      (cachedFetch net now st url none).netCalls = 1 ∧
      cachedFetch net now (cachedFetch net now st url none).state url none =
        ⟨.ok d, (cachedFetch net now st url none).state, 0⟩) := by
  refine ⟨fun net now st url ttlMs e he hx htr =>
    cachedFetch_hit net now st url ttlMs e he hx htr, ?_⟩
  intro net now st url d hc hfresh hok hbody htr
  have hget : ApiCache.get st now (generateCacheKey url []) = (none, st) :=
    get_eq_none st now (generateCacheKey url []) hc
  have hmiss : ∀ v, (ApiCache.get st now (generateCacheKey url [])).1 = some v →
      v.truthy = false := by
    intro v h
    rw [hget] at h
    cases h
  have hrlfull := isRateLimited_none st now (extractDomain url)
    (rateBudgetFor (extractDomain url)).maxRequests
    (rateBudgetFor (extractDomain url)).windowMs hfresh
  have hrl : (ApiCache.isRateLimited st now (extractDomain url)
      (rateBudgetFor (extractDomain url)).maxRequests
      (rateBudgetFor (extractDomain url)).windowMs).1 = false := by
    rw [hrlfull]
  have hcall1 : cachedFetch net now st url none =
      ⟨.ok d,
        ApiCache.set (ApiCache.isRateLimited st now (extractDomain url)
          (rateBudgetFor (extractDomain url)).maxRequests
          (rateBudgetFor (extractDomain url)).windowMs).2 now
          (generateCacheKey url []) d none,
        1⟩ := by
    rw [cachedFetch_eq_miss net now st url none hmiss, hget]
    exact cachedFetchMiss_ok net now st url none (generateCacheKey url []) d
      hrl hok hbody
  refine ⟨by rw [hcall1], by rw [hcall1], ?_⟩
  rw [hcall1]
  exact cachedFetch_hit net now _ url none ⟨d, now, now + effectiveTtl none⟩
    (mapGet_mapSet_self _ _ _)
    (show ¬ now + (60000 : Int) < now by omega) htr

/-- The URL used in the concrete cachedFetch scenarios. -/
def exampleUrl : String := "https://api.example.com/x"

/-- A network that always answers 200 with the truthy payload `7`. -/
def netOk7 : String → NetResp := fun _ => ⟨true, 200, "OK", some (.num 7)⟩

/-- C2 witness: from the empty state, two back-to-back calls for
`https://api.example.com/x` make exactly one network call and the second
is served from cache. -/
theorem cachedFetch_hit_frame_and_second_call_cached_witness :
    (mapGet ApiCacheState.empty.cache (generateCacheKey exampleUrl []) = none ∧
      mapGet ApiCacheState.empty.rateLimits (extractDomain exampleUrl) = none ∧
      (netOk7 exampleUrl).ok = true ∧
      (netOk7 exampleUrl).body = some (.num 7) ∧
      (Json.num 7).truthy = true) ∧
    ((cachedFetch netOk7 0 ApiCacheState.empty exampleUrl none).result =
        .ok (.num 7) ∧
      (cachedFetch netOk7 0 ApiCacheState.empty exampleUrl none).netCalls = 1 ∧
      cachedFetch netOk7 0
          (cachedFetch netOk7 0 ApiCacheState.empty exampleUrl none).state
          exampleUrl none =
        ⟨.ok (.num 7),
          (cachedFetch netOk7 0 ApiCacheState.empty exampleUrl none).state, 0⟩) :=
  ⟨⟨rfl, rfl, rfl, rfl, rfl⟩,
    cachedFetch_hit_frame_and_second_call_cached.2 netOk7 0 ApiCacheState.empty
      exampleUrl (.num 7) rfl rfl rfl rfl rfl⟩

/-- A state whose cache holds a falsy value (`0`) for the example URL,
unexpired until time 100000. -/
def stFalsyCached : ApiCacheState :=
  ⟨[(generateCacheKey exampleUrl [], ⟨.num 0, 0, 100000⟩)], []⟩

/-- C2 counterexample: the cache holds an unexpired entry for the key
(`0`, stored falsy), yet `cachedFetch` performs a network request —
the claim's "no network request whenever an unexpired entry exists" is
false on falsy values. -/
theorem cachedFetch_falsy_hit_goes_to_network :
    mapGet stFalsyCached.cache (generateCacheKey exampleUrl []) =
      some ⟨.num 0, 0, 100000⟩ ∧
    ¬ ((100000 : Int) < 0) ∧
    (cachedFetch netOk7 0 stFalsyCached exampleUrl none).netCalls = 1 :=
  ⟨rfl, by decide, rfl⟩

/-- C3 (amended): when the cache lookup produces nothing truthy, the
rate limiter admits, and the response either has a non-success status or
fails to parse, `cachedFetch` throws (an `HttpError` carrying the status
in the non-success case) and writes nothing: the cache afterwards is
exactly the cache after the initial lookup — whose only possible change
is the lazy eviction of an already expired entry under the key. -/
theorem cachedFetch_error_paths_write_nothing (net : String → NetResp) (now : Int)
    (st : ApiCacheState) (url : String) (ttlMs : Option Int)
    (hmiss : ∀ v, (ApiCache.get st now (generateCacheKey url [])).1 = some v →
      v.truthy = false)
    (hallow : (ApiCache.isRateLimited
      (ApiCache.get st now (generateCacheKey url [])).2 now
      (extractDomain url) (rateBudgetFor (extractDomain url)).maxRequests
      (rateBudgetFor (extractDomain url)).windowMs).1 = false)
    (herr : (net url).ok = false ∨ (net url).body = none) :
    (∃ e : FetchError, (cachedFetch net now st url ttlMs).result = .error e) ∧
    ((net url).ok = false → (cachedFetch net now st url ttlMs).result =
      .error (.httpError (net url).status (net url).statusText)) ∧
    (cachedFetch net now st url ttlMs).state.cache =
      (ApiCache.get st now (generateCacheKey url [])).2.cache := by
  rw [cachedFetch_eq_miss net now st url ttlMs hmiss]
  rcases herr with hok | hbody
  · rw [cachedFetchMiss_httpError net now _ url ttlMs _ hallow hok]
    exact ⟨⟨_, rfl⟩, fun _ => rfl, isRateLimited_cache_eq _ now _ _ _⟩
  · by_cases hok : (net url).ok = true
    · rw [cachedFetchMiss_parseError net now _ url ttlMs _ hallow hok hbody]
      refine ⟨⟨.parseError, rfl⟩, ?_, isRateLimited_cache_eq _ now _ _ _⟩
      intro hok2
      rw [hok] at hok2
      cases hok2
    · have hokf : (net url).ok = false := by
        exact Bool.not_eq_true _ ▸ eq_false_of_ne_true hok
      rw [cachedFetchMiss_httpError net now _ url ttlMs _ hallow hokf]
      exact ⟨⟨_, rfl⟩, fun _ => rfl, isRateLimited_cache_eq _ now _ _ _⟩

/-- A network that always answers 500 with an unparsable body. -/
def net500 : String → NetResp :=
  fun _ => ⟨false, 500, "Internal Server Error", none⟩

/-- C3 witness: from the empty state a 500 response makes `cachedFetch`
throw `HTTP 500` and leaves the (empty) cache exactly as the lookup left
it. -/
theorem cachedFetch_error_paths_write_nothing_witness :
    ((net500 exampleUrl).ok = false ∨ (net500 exampleUrl).body = none) ∧
    ((∃ e : FetchError,
        (cachedFetch net500 0 ApiCacheState.empty exampleUrl none).result =
          .error e) ∧
      ((net500 exampleUrl).ok = false →
        (cachedFetch net500 0 ApiCacheState.empty exampleUrl none).result =
          .error (.httpError (net500 exampleUrl).status
            (net500 exampleUrl).statusText)) ∧
      (cachedFetch net500 0 ApiCacheState.empty exampleUrl none).state.cache =
        (ApiCache.get ApiCacheState.empty 0
          (generateCacheKey exampleUrl [])).2.cache) :=
  ⟨Or.inl rfl,
    cachedFetch_error_paths_write_nothing net500 0 ApiCacheState.empty exampleUrl
      none
      (by
        intro v h
        rw [show (ApiCache.get ApiCacheState.empty 0
          (generateCacheKey exampleUrl [])).1 = none from rfl] at h
        cases h)
      rfl (Or.inl rfl)⟩

/-- A state holding an entry for the example URL that expired at time
10. -/
def stExpiredCached : ApiCacheState :=
  ⟨[(generateCacheKey exampleUrl [], ⟨.str "old", 0, 10⟩)], []⟩

/-- C3 counterexample: on the HTTP-error path the Cache Store's state is
NOT always unchanged — here the lookup lazily evicts the expired entry
for the key, so the cache goes from one entry to none although the fetch
only failed. -/
theorem cachedFetch_error_path_changed_cache :
    (cachedFetch net500 20 stExpiredCached exampleUrl none).result =
      .error (.httpError 500 "Internal Server Error") ∧
    stExpiredCached.cache ≠ [] ∧
    (cachedFetch net500 20 stExpiredCached exampleUrl none).state.cache = [] :=
  ⟨rfl, by decide, rfl⟩

/-- C10: a stored falsy value (`null`, `0`, `false`, `''`) behind an
unexpired entry is treated as a miss, because the hit test is the JS
truthiness of the value `get` returned: the call consumes a rate-limit
slot for the URL's domain and performs the network request again. -/
theorem cachedFetch_falsy_value_treated_as_miss (net : String → NetResp)
    (now : Int) (st : ApiCacheState) (url : String) (ttlMs : Option Int)
    (e : CacheEntry)
    (he : mapGet st.cache (generateCacheKey url []) = some e)
    (hx : ¬ e.expiry < now)
    (hfalsy : e.data.truthy = false)
    (hfresh : mapGet st.rateLimits (extractDomain url) = none) :
    (cachedFetch net now st url ttlMs).netCalls = 1 ∧
    mapGet (cachedFetch net now st url ttlMs).state.rateLimits
        (extractDomain url) =
      some ⟨1, now + (rateBudgetFor (extractDomain url)).windowMs⟩ := by
  have hget := get_eq_some st now (generateCacheKey url []) e he hx
  have hmiss : ∀ v, (ApiCache.get st now (generateCacheKey url [])).1 = some v →
      v.truthy = false := by
    intro v h
    rw [hget] at h
    injection h with h2
    rw [← h2]
    exact hfalsy
  have hrlfull := isRateLimited_none st now (extractDomain url)
    (rateBudgetFor (extractDomain url)).maxRequests
    (rateBudgetFor (extractDomain url)).windowMs hfresh
  have hrl : (ApiCache.isRateLimited st now (extractDomain url)
      (rateBudgetFor (extractDomain url)).maxRequests
      (rateBudgetFor (extractDomain url)).windowMs).1 = false := by
    rw [hrlfull]
  have hwin : mapGet (ApiCache.isRateLimited st now (extractDomain url)
      (rateBudgetFor (extractDomain url)).maxRequests
      (rateBudgetFor (extractDomain url)).windowMs).2.rateLimits
      (extractDomain url) =
      some ⟨1, now + (rateBudgetFor (extractDomain url)).windowMs⟩ := by
    rw [hrlfull]
    exact mapGet_mapSet_self _ _ _
  rw [cachedFetch_eq_miss net now st url ttlMs hmiss, hget]
  by_cases hok : (net url).ok = true
  · cases hbody : (net url).body with
    | none =>
      rw [cachedFetchMiss_parseError net now st url ttlMs _ hrl hok hbody]
      exact ⟨rfl, hwin⟩
    | some d =>
      rw [cachedFetchMiss_ok net now st url ttlMs _ d hrl hok hbody]
      exact ⟨rfl, hwin⟩
  · have hokf : (net url).ok = false := by
      exact Bool.not_eq_true _ ▸ eq_false_of_ne_true hok
    rw [cachedFetchMiss_httpError net now st url ttlMs _ hrl hokf]
    exact ⟨rfl, hwin⟩

/-- C10 witness: the unexpired falsy entry `0` for the example URL leads
to a network call and consumes the first slot of the domain's fresh
window. -/
theorem cachedFetch_falsy_value_treated_as_miss_witness :
    (mapGet stFalsyCached.cache (generateCacheKey exampleUrl []) =
        some ⟨.num 0, 0, 100000⟩ ∧
      ¬ ((100000 : Int) < 0) ∧
      (Json.num 0).truthy = false ∧
      mapGet stFalsyCached.rateLimits (extractDomain exampleUrl) = none) ∧
    ((cachedFetch net500 0 stFalsyCached exampleUrl none).netCalls = 1 ∧
      mapGet (cachedFetch net500 0 stFalsyCached exampleUrl none).state.rateLimits
          (extractDomain exampleUrl) =
        some ⟨1, 0 + (rateBudgetFor (extractDomain exampleUrl)).windowMs⟩) :=
  ⟨⟨rfl, by decide, rfl, rfl⟩,
    cachedFetch_falsy_value_treated_as_miss net500 0 stFalsyCached exampleUrl
      none ⟨.num 0, 0, 100000⟩ rfl (by decide) rfl rfl⟩

/-! ## Claim about the batch fetch -/

/-- A metrics payload served for the healthy symbols. -/
def sampleMetrics : Json :=
  .obj (.cons "metric"
    (.obj (.cons "52WeekHigh" (.num 150)
      (.cons "52WeekLow" (.num 90)
        (.cons "beta" (.num 1)
          (.cons "peBasicExclExtraTTM" (.num 20)
            (.cons "10DayAverageTradingVolume" (.num 3) .nil)))))) .nil)

/-- A profile payload served for the healthy symbols. -/
def sampleProfile : Json :=
  .obj (.cons "name" (.str "Alpha Corp")
    (.cons "marketCapitalization" (.num 1000)
      (.cons "finnhubIndustry" (.str "Tech")
        (.cons "country" (.str "US") .nil))))

/-- A quote payload served for the healthy symbols. -/
def sampleQuote : Json :=
  .obj (.cons "c" (.num 101)
    (.cons "d" (.num 2)
      (.cons "dp" (.num 1)
        (.cons "pc" (.num 99) .nil))))

/-- The network of the batch scenario: every request for symbol `BBB`
(all three of its endpoint URLs) fails with a 500, every other request
succeeds with the matching payload — so every underlying fetch for
`BBB` throws while those for `AAA` and `CCC` succeed. -/
def netBatch : String → NetResp := fun url =>
  if url = metricsUrl "BBB" "T" ∨ url = profileUrl "BBB" "T" ∨
      url = quoteUrl "BBB" "T" then
    ⟨false, 500, "Internal Server Error", none⟩
  else if url = metricsUrl "AAA" "T" ∨ url = metricsUrl "CCC" "T" then
    ⟨true, 200, "OK", some sampleMetrics⟩
  else if url = profileUrl "AAA" "T" ∨ url = profileUrl "CCC" "T" then
    ⟨true, 200, "OK", some sampleProfile⟩
  else
    ⟨true, 200, "OK", some sampleQuote⟩

/-- The batch result list of the scenario: all three endpoints for
`['AAA', 'BBB', 'CCC']` with token `T` from the empty cache. -/
def batchScenario : List StockResult :=
  (cachedMultiStockFetch netBatch 0 ApiCacheState.empty ["AAA", "BBB", "CCC"] "T"
    ⟨true, true, true⟩).1

set_option maxRecDepth 100000 in
set_option maxHeartbeats 2000000 in
/-- C4: the batch resolves with exactly 3 results in input order; the
failing symbol `BBB` yields the degraded placeholder — identifier
preserved, numeric fields zeroed, explicit error marker — while `AAA`
and `CCC` carry the fetched data with no error marker. -/
theorem batch_isolates_failing_symbol :
    batchScenario.length = 3 ∧
    batchScenario.map StockResult.symbol = ["AAA", "BBB", "CCC"] ∧
    batchScenario.getD 1 (degradedResult "X") = degradedResult "BBB" ∧
    (degradedResult "BBB").error = some "Failed to fetch BBB" ∧
    (degradedResult "BBB").symbol = "BBB" ∧
    (degradedResult "BBB").price = some (.num 0) ∧
    (degradedResult "BBB").fiftyTwoWeekHigh = some (.num 0) ∧
    (degradedResult "BBB").fiftyTwoWeekLow = some (.num 0) ∧
    (batchScenario.getD 0 (degradedResult "X")).error = none ∧
    (batchScenario.getD 0 (degradedResult "X")).metrics = some sampleMetrics ∧
    (batchScenario.getD 0 (degradedResult "X")).quote = some sampleQuote ∧
    (batchScenario.getD 0 (degradedResult "X")).price = some (.num 101) ∧
    (batchScenario.getD 2 (degradedResult "X")).error = none ∧
    (batchScenario.getD 2 (degradedResult "X")).metrics = some sampleMetrics ∧
    (batchScenario.getD 2 (degradedResult "X")).quote = some sampleQuote ∧
    (batchScenario.getD 2 (degradedResult "X")).price = some (.num 101) := by
  refine ⟨?_, ?_, ?_, ?_, ?_, ?_, ?_, ?_, ?_, ?_, ?_, ?_, ?_, ?_, ?_, ?_⟩ <;>
    rfl
